import Mathlib

/-!
# Verification development for the SISC simulation core

Shallow embedding of the turn-based multi-agent simulation engine
(`EnvironmentManager`, `Mutator`, `Provisioner`, `Capitalizer`) in Lean 4,
together with theorems settling the specification's testable properties.

Modelling conventions:
* JSON values are an inductive tree `JValue`; JavaScript objects are
  insertion-ordered association lists (`setA` updates in place, appends new
  keys, exactly like JS property assignment).
* `structuredClone` is deep copy; in a pure functional model it is the
  identity, so deep-copy sites are noted in comments rather than modelled.
* Language-model calls are external nondeterminism.  Each call's validated
  output is an *input* of the embedded function (a proposal per turn, a list
  of mutation variants, shadow-trial score lists, ...), so theorems quantify
  over every possible model behaviour.
* The optional Capitalizer / disruptor wiring of `EnvironmentManager` is
  modelled in the configuration where they are not wired (as in the unit
  tests and the shadow-trial paths); the Capitalizer privacy filter itself
  is modelled separately as the pure function `redactHint`.
-/

namespace SISC

/-! ## JSON values and JavaScript-object association lists -/

/-- A JSON value, as stored in `state.variables`.  Mirrors the payloads the
engine actually moves around (`z.any()` mutation values).  JS arrays and
`null` do not occur in any analysed path and are omitted. -/
inductive JValue where
  | jnum  : Int → JValue
  | jstr  : String → JValue
  | jbool : Bool → JValue
  | jobj  : List (String × JValue) → JValue
deriving Repr

/-- A JavaScript object: keys in insertion order. -/
abbrev JObj := List (String × JValue)

/-- Property read: `o[k]`. -/
def lookupJ (o : JObj) (k : String) : Option JValue :=
  match o with
  | [] => none
  | (k', v) :: rest => if k' = k then some v else lookupJ rest k

/-- Property write `o[k] = v`: updates an existing key in place, appends a
new key at the end — exactly JS object assignment order semantics. -/
def setJ (o : JObj) (k : String) (v : JValue) : JObj :=
  match o with
  | [] => [(k, v)]
  | (k', v') :: rest => if k' = k then (k, v) :: rest else (k', v') :: setJ rest k v

/-- Generic association list over `String` keys (used for penalty counters
and the permissions table). -/
def lookupA {α : Type} (l : List (String × α)) (k : String) : Option α :=
  match l with
  | [] => none
  | (k', v) :: rest => if k' = k then some v else lookupA rest k

/-- Association-list write with JS object semantics. -/
def setA {α : Type} (l : List (String × α)) (k : String) (v : α) : List (String × α) :=
  match l with
  | [] => [(k, v)]
  | (k', v') :: rest => if k' = k then (k, v) :: rest else (k', v') :: setA rest k v

/-! ## Schemas (src/schemas/state.ts, actions.ts, meta.ts via docs §3) -/

/-- `StateMutation.action`: `z.enum(["modify", "add"])`. -/
inductive MutAction where
  | modify
  | add
deriving Repr, DecidableEq

/-- `StateMutation` (src/schemas/state.ts). -/
structure StateMutation where
  action : MutAction
  path : String
  value : JValue
deriving Repr

/-- `ActionProposal` (src/schemas/actions.ts): the structured output every
primary actor must return on their turn. -/
structure ActionProposal where
  internal_monologue : String
  public_dialogue : String
  state_mutations : List StateMutation
  propose_resolution : Bool
  abort_episode : Bool
deriving Repr

/-- `ActionLogEntry` as built by `EnvironmentManager.step` step 8.
Information-disruptor entries (speaker `disruptor_info`, `headline` field)
only arise when an info disruptor is wired; they are absent in the analysed
configuration. -/
structure ActionLogEntry where
  turn : Nat
  speakerId : String
  internal_monologue : String
  public_dialogue : String
  state_mutations : List StateMutation
  propose_resolution : Bool
  abort_episode : Bool
deriving Repr

/-- `AgentPermissions` (src/schemas/meta.ts, reproduced verbatim in
docs/engineering_implementation.md §3). -/
structure AgentPermissions where
  can_modify_fields : List String
  cannot_modify_fields : List String
  can_abort_episode : Bool
  can_propose_resolution : Bool
  max_state_mutations_per_turn : Nat
deriving Repr

/-- `NewAgentProvisioning` (src/schemas/meta.ts, reproduced verbatim in
docs/engineering_implementation.md §3). -/
structure NewAgentProvisioning where
  agent_id : String
  archetype : String
  turn_injection_logic : String
  system_prompt : String
  core_goals : List String
  permissions : AgentPermissions
  design_rationale : String
deriving Repr

/-- `FrameworkConfig` (src/schemas/config.ts).  Rational fields stand for
the JS `number`s actually compared by the engine.  The two acceptance
fields read by `Mutator.evolve` (`acceptance_lcb_lambda`,
`acceptance_p_value_threshold`) are taken from the spec's configuration
table; the snapshot of `config.ts` in this revision omits them while
`mutator.ts` reads them. -/
structure FrameworkConfig where
  max_turns_per_episode : Nat
  max_episode_tokens : Nat
  max_concurrency : Nat
  epoch_size : Nat
  mutation_variants : Nat
  shadow_trial_count : Nat
  improvement_margin : ℚ
  acceptance_lcb_lambda : ℚ
  acceptance_p_value_threshold : ℚ
  creation_patience : Nat
  max_active_created_agents : Nat
  creation_cooldown_generations : Nat
  require_human_approval_for_creation : Bool
  max_validation_retries : Nat
  forced_concession_threshold : Nat
  scout_sweep_interval_generations : Nat
  scout_on_new_ingredient : Bool
  info_disruptor_frequency : Nat
  summarization_frequency : Nat
deriving Repr

/-- `GenericStateObject` (src/schemas/state.ts).  `injections` and
`scout_hypotheses` are only produced by Capitalizer / Explorer wiring and
are omitted in the analysed configuration. -/
structure EnvState where
  turn_number : Nat
  current_speaker_id : String
  is_terminal : Bool
  /-- Embeds the `variables` record of `GenericStateObject` (the name
  `variables` is reserved in Lean). -/
  vars : JObj
deriving Repr

/-! ## Character-list string primitives

Lean's built-in `String.splitOn` / `String.trim` / `String.startsWith` are
implemented on byte positions and do not reduce inside the kernel, so the
JS string operations the engine uses are given structural char-list
implementations here. -/

/-- JS `String.prototype.split` on the single character `sep`
(empty segments preserved, like `"a..b".split(".") = ["a","","b"]`). -/
def splitOnChar (sep : Char) : List Char → List (List Char)
  | [] => [[]]
  | c :: rest =>
    if c = sep then [] :: splitOnChar sep rest
    else
      match splitOnChar sep rest with
      | [] => [[c]]
      | w :: ws => (c :: w) :: ws

/-- `path.split(".")`. -/
def splitPath (path : String) : List String :=
  (splitOnChar '.' path.toList).map (fun cs => String.mk cs)

/-- `a == b` as prefix test: JS `s.startsWith(p)`. -/
def isPrefixChars : List Char → List Char → Bool
  | [], _ => true
  | _ :: _, [] => false
  | a :: as, b :: bs => a = b && isPrefixChars as bs

/-- JS `s.startsWith(prefixStr)`. -/
def strStartsWith (s prefixStr : String) : Bool :=
  isPrefixChars prefixStr.toList s.toList

/-! ## EnvironmentManager: mutation application (src/core/environment.ts,
`applyMutation`, lines 452-470) -/

/-- The dotted-path walk of `applyMutation`.  `some o'` is the updated
object; `none` means the walk hit a missing/non-object intermediate node
under `modify` and the source returns without touching anything.
The JS guard is `!(key in current) || typeof current[key] !== "object"`;
for an `add` the missing node is replaced by `{}` and the walk continues.
The final value is deep-copied in (`structuredClone` = identity here). -/
def mutGo (isAdd : Bool) (v : JValue) : List String → JObj → Option JObj
  | [], o => some o
  | [k], o => some (setJ o k v)
  | k :: k2 :: rest, o =>
    match lookupJ o k with
    | some (JValue.jobj sub) =>
      (mutGo isAdd v (k2 :: rest) sub).map (fun s => setJ o k (JValue.jobj s))
    | _ =>
      if isAdd then (mutGo isAdd v (k2 :: rest) []).map (fun s => setJ o k (JValue.jobj s))
      else none

/-- `EnvironmentManager.applyMutation`: split the path on `"."`, walk, and
apply; a failed `modify` walk is silently a no-op. -/
def applyMutation (vars : JObj) (m : StateMutation) : JObj :=
  (mutGo (m.action = MutAction.add) m.value (splitPath m.path) vars).getD vars

/-! ## EnvironmentManager: permissions (src/core/environment.ts,
`isPermitted`, lines 430-446) -/

/-- `EnvironmentManager.isPermitted`: primary actors (no registered
permissions) are unrestricted; for created agents explicit denials are
checked first, then the allow list, default deny. -/
def isPermitted (perms : Option AgentPermissions) (path : String) : Bool :=
  match perms with
  | none => true
  | some p =>
    if p.cannot_modify_fields.any (fun denied => strStartsWith path denied) then false
    else p.can_modify_fields.any (fun allowed => strStartsWith path allowed)

/-! ## EnvironmentManager: the environment object and `step` -/

/-- The mutable fields of an `EnvironmentManager` instance
(src/core/environment.ts, lines 127-162). -/
structure Env where
  state : EnvState
  turnOrder : List String
  actionLogs : List ActionLogEntry
  terminationReason : String
  penaltyCount : List (String × Nat)
  lastProposalWasFinal : Bool
  agentPermissions : List (String × AgentPermissions)
  createdAgentIds : List String
deriving Repr

/-- `new EnvironmentManager(initialState, config)`: the initial state is
deep-copied exactly once, here (line 166). -/
def Env.new (initialState : EnvState) : Env :=
  { state := initialState
    turnOrder := []
    actionLogs := []
    terminationReason := "timeout"
    penaltyCount := []
    lastProposalWasFinal := false
    agentPermissions := []
    createdAgentIds := [] }

/-- Errors thrown by `step` (src/errors/index.ts). -/
inductive StepErr where
  | noAgent (speaker : String)
  | episodeCorrupted (speaker : String)
  | permissionViolation (speaker : String) (path : String)
deriving Repr, DecidableEq

/-- Outcome of one `step` call.  JS throws leave the partially mutated
`this` behind, so the error case carries the environment at throw time. -/
inductive StepOutcome where
  | ok (env : Env) (tokens : Nat)
  | err (e : StepErr) (env : Env)
deriving Repr

/-- `turnOrder[turn_number % turnOrder.length]` (line 193). -/
def currentSpeaker (env : Env) : String :=
  env.turnOrder.getD (env.state.turn_number % env.turnOrder.length) ""

/-- Steps 6-8 of a valid-proposal tick (lines 271-320): apply the
mutations in order, evaluate the termination conditions, append the log
entry (recording the pre-increment turn number), update the
consecutive-agreement flag, and advance `turn_number`. -/
def commitProposal (env : Env) (speaker : String) (p : ActionProposal) : Env :=
  -- 6. Apply state mutations in order
  let vars := p.state_mutations.foldl applyMutation env.state.vars
  -- 7. Termination conditions (lines 278-286)
  let term :=
    if p.abort_episode then true
    else if p.propose_resolution && env.lastProposalWasFinal then true
    else env.state.is_terminal
  let reason :=
    if p.abort_episode then "abort_episode"
    else if p.propose_resolution && env.lastProposalWasFinal then "agreement"
    else env.terminationReason
  -- 8. Log and emit
  let entry : ActionLogEntry :=
    { turn := env.state.turn_number
      speakerId := speaker
      internal_monologue := p.internal_monologue
      public_dialogue := p.public_dialogue
      state_mutations := p.state_mutations
      propose_resolution := p.propose_resolution
      abort_episode := p.abort_episode }
  { env with
    state := { env.state with
      vars := vars
      is_terminal := term
      turn_number := env.state.turn_number + 1 }
    terminationReason := reason
    lastProposalWasFinal := p.propose_resolution
    actionLogs := env.actionLogs ++ [entry] }

/-- One tick of the execution loop (`EnvironmentManager.step`, lines
192-321), with no Capitalizer or disruptors wired.  The validation retry
loop's outcome is the input: `some p` is a schema-valid proposal, `none`
means the retry budget was exhausted; `tokens` is the turn's accumulated
token usage. -/
def step (cfg : FrameworkConfig) (env : Env) (input : Option ActionProposal)
    (tokens : Nat) : StepOutcome :=
  if env.turnOrder.isEmpty then
    -- `agents[undefined]` → `throw new Error("No agent mounted ...")`
    StepOutcome.err (StepErr.noAgent "") env
  else
    let speaker := currentSpeaker env
    let env := { env with state := { env.state with current_speaker_id := speaker } }
    match input with
    | none =>
      -- 4. Fallback: forced concession penalty (lines 252-261)
      let pc := (lookupA env.penaltyCount speaker).getD 0 + 1
      let env := { env with penaltyCount := setA env.penaltyCount speaker pc }
      if cfg.forced_concession_threshold ≤ pc then
        StepOutcome.err (StepErr.episodeCorrupted speaker)
          { env with state := { env.state with is_terminal := true } }
      else
        StepOutcome.ok
          { env with state := { env.state with turn_number := env.state.turn_number + 1 } }
          tokens
    | some p =>
      -- 5. Validate permissions for every mutation before applying any
      match p.state_mutations.find?
          (fun m => !(isPermitted (lookupA env.agentPermissions speaker) m.path)) with
      | some m => StepOutcome.err (StepErr.permissionViolation speaker m.path) env
      | none => StepOutcome.ok (commitProposal env speaker p) tokens

/-! ## EnvironmentManager: `runEpisode` (lines 328-380) -/

/-- The episode-state reset at the top of `runEpisode` (lines 331-337).
Note `state.variables` is *not* restored: only the deep copy in the
constructor ever initialises it. -/
def resetEpisode (env : Env) : Env :=
  { env with
    state := { env.state with is_terminal := false, turn_number := 0 }
    actionLogs := []
    terminationReason := "timeout"
    penaltyCount := []
    lastProposalWasFinal := false }

/-- JS `array.slice(-keep)`. -/
def takeLast {α : Type} (keep : Nat) (l : List α) : List α :=
  l.drop (l.length - keep)

/-- Context pruning at the tail of each `runEpisode` iteration (lines
364-374): every `summarization_frequency` turns, keep only the last
`2 × summarization_frequency` log entries. -/
def pruneLogs (cfg : FrameworkConfig) (env : Env) : Env :=
  if env.state.turn_number > 0 &&
      env.state.turn_number % cfg.summarization_frequency == 0 then
    let keepCount := cfg.summarization_frequency * 2
    if keepCount < env.actionLogs.length then
      { env with actionLogs := takeLast keepCount env.actionLogs }
    else env
  else env

/-- A scripted episode: for each turn number, the outcome of the
validation retry loop (`none` = budget exhausted) and the turn's token
usage.  This stands for the mounted agents' (nondeterministic) behaviour. -/
def Script : Type := Nat → Option ActionProposal × Nat

/-- The `while` loop of `runEpisode` (lines 342-375), instrumented with a
`ghost` accumulator that records every log entry ever appended (pruning
never touches it).  `fuel` bounds the iteration count; `runEpisode`
supplies enough fuel for the loop's own exit conditions to fire first. -/
def episodeLoop (cfg : FrameworkConfig) (script : Script) :
    Nat → Nat → List ActionLogEntry → Env → Except StepErr (Env × List ActionLogEntry)
  | 0, _, ghost, env => Except.ok (env, ghost)
  | fuel + 1, tokens, ghost, env =>
    if env.state.is_terminal || cfg.max_turns_per_episode ≤ env.state.turn_number then
      Except.ok (env, ghost)
    else if cfg.max_episode_tokens < tokens then
      -- Cost circuit breaker (lines 348-352)
      Except.ok
        ({ env with
            state := { env.state with is_terminal := true }
            terminationReason := "token_limit" }, ghost)
    else
      match script env.state.turn_number with
      | (input, tk) =>
        match step cfg env input tk with
        | StepOutcome.err (StepErr.episodeCorrupted _) envE =>
          -- catch (EpisodeCorruptedError) → reason "corrupted", break
          Except.ok ({ envE with terminationReason := "corrupted" }, ghost)
        | StepOutcome.err e _ => Except.error e
        | StepOutcome.ok env' tk' =>
          let ghost' := ghost ++ env'.actionLogs.drop env.actionLogs.length
          episodeLoop cfg script fuel (tokens + tk') ghost' (pruneLogs cfg env')

/-- `EnvironmentManager.runEpisode`: reset, loop, return the final state
and `this.actionLogs` (which the orchestrator hands to the Critic).  The
second list is the ghost record of every entry ever appended. -/
def runEpisode (cfg : FrameworkConfig) (script : Script) (env : Env) :
    Except StepErr (Env × List ActionLogEntry) :=
  episodeLoop cfg script (cfg.max_turns_per_episode + 1) 0 [] (resetEpisode env)

/-! ## EnvironmentManager: `mountAgent` (lines 388-424) -/

/-- `ActorAgent` (src/agents/actor.ts): id, Layer-1 immutable core,
Layer-2 mutable strategy, optional sampling hyperparameters. -/
structure ActorAgent where
  id : String
  immutableCore : String
  mutableStrategy : String
  hyperparameters : Option (ℚ × ℚ)
deriving Repr, DecidableEq

/-- `ActorAgent.withMutatedStrategy` (src/agents/actor.ts, lines 97-108):
same id and immutable core, new strategy and sampling settings. -/
def withMutatedStrategy (a : ActorAgent) (newStrategy : String)
    (newHyper : Option (ℚ × ℚ)) : ActorAgent :=
  { a with
    mutableStrategy := newStrategy
    hyperparameters := match newHyper with
      | some h => some h
      | none => a.hyperparameters }

/-- Strip an expected literal prefix, or fail. -/
def dropLiteral : List Char → List Char → Option (List Char)
  | [], rest => some rest
  | _ :: _, [] => none
  | p :: ps, c :: cs => if p = c then dropLiteral ps cs else none

/-- Try `/speak_every_(\d+)_turns/` anchored at one position. -/
def matchSpeakEveryHere (here : List Char) : Option Nat :=
  match dropLiteral "speak_every_".toList here with
  | none => none
  | some afterLit =>
    let digits := afterLit.takeWhile Char.isDigit
    if digits.isEmpty then none
    else if isPrefixChars "_turns".toList (afterLit.drop digits.length) then
      some (digits.foldl (fun n d => n * 10 + (d.toNat - 48)) 0)
    else none

/-- Scan for the first match of `/speak_every_(\d+)_turns/` starting at
each position, as the JS regex engine does. -/
def findSpeakEvery : List Char → Option Nat
  | [] => none
  | c :: rest =>
    match matchSpeakEveryHere (c :: rest) with
    | some n => some n
    | none => findSpeakEvery rest

/-- `EnvironmentManager.parseTurnInjection` (lines 476-481): extract `N`
from `speak_every_N_turns`, defaulting to 1 (speak every turn). -/
def parseTurnInjection (logic : String) : Nat :=
  (findSpeakEvery logic.toList).getD 1

/-- Turn-order extension (lines 414-420): insert the new id after every
`interval`-th existing slot.  (`(i+1) % 0` is `NaN` in JS and `i+1` here;
either way it never equals 0, so interval 0 never inserts.) -/
def insertEvery (order : List String) (interval : Nat) (id : String) : List String :=
  (order.enum.map (fun (i, x) =>
    if (i + 1) % interval == 0 then [x, id] else [x])).flatten

/-- `EnvironmentManager.mountAgent`: Zod schema validation (structural,
always succeeds on a well-typed spec), hard spawn cap, instantiation with
no mutable layer, permission registration, turn-order extension.  Note the
source performs no permission-safety check here. -/
def mountAgent (cfg : FrameworkConfig) (env : Env) (spec : NewAgentProvisioning) :
    Except String (Env × ActorAgent) :=
  let activeCreated := env.turnOrder.filter (fun id => env.createdAgentIds.contains id)
  if cfg.max_active_created_agents ≤ activeCreated.length then
    Except.error "MaxAgentsExceededError"
  else
    let newAgent : ActorAgent :=
      { id := spec.agent_id
        immutableCore := spec.system_prompt
        mutableStrategy := ""
        hyperparameters := none }
    let interval := parseTurnInjection spec.turn_injection_logic
    Except.ok
      ({ env with
          agentPermissions := setA env.agentPermissions spec.agent_id spec.permissions
          createdAgentIds :=
            if env.createdAgentIds.contains spec.agent_id then env.createdAgentIds
            else env.createdAgentIds ++ [spec.agent_id]
          turnOrder := insertEvery env.turnOrder interval spec.agent_id },
        newAgent)

/-- The Provisioner's post-generation safety guardrails
(src/agents/provisioner.ts, `designAgent` Phase 4, lines 71-81): reject
game-breaking capabilities with `UnsafeAgentDesignError`. -/
def designAgentGuard (spec : NewAgentProvisioning) : Except String NewAgentProvisioning :=
  if spec.permissions.can_abort_episode then
    Except.error "Created agents cannot trigger abort_episode"
  else if spec.permissions.can_propose_resolution then
    Except.error "Created agents cannot trigger propose_resolution"
  else if 3 < spec.permissions.max_state_mutations_per_turn then
    Except.error "Created agents limited to 3 mutations/turn max"
  else Except.ok spec

/-! ## Capitalizer privacy filter (src/agents/capitalizer.ts,
`analyzeOverlap`, lines 151-191) -/

/-- The sentence-punctuation class of the split regex `/[.?!;\n]/`. -/
def isSentencePunct (c : Char) : Bool :=
  c == '.' || c == '?' || c == '!' || c == ';' || c == '\n'

/-- Split a character list on sentence punctuation (separators dropped,
like `String.prototype.split` with a character class). -/
def splitPunctChars : List Char → List (List Char)
  | [] => [[]]
  | c :: rest =>
    if isSentencePunct c then [] :: splitPunctChars rest
    else
      match splitPunctChars rest with
      | [] => [[c]]
      | w :: ws => (c :: w) :: ws

/-- Whitespace for JS `String.prototype.trim` (the engine's monologues are
plain text; the exotic Unicode space classes do not occur). -/
def isJsWhitespace (c : Char) : Bool :=
  c == ' ' || c == '\t' || c == '\n' || c == '\r'

/-- JS `s.trim()`. -/
def trimChars (cs : List Char) : List Char :=
  ((cs.dropWhile isJsWhitespace).reverse.dropWhile isJsWhitespace).reverse

/-- `monologue.split(/[.?!;\n]/).map(trim).filter(len > 20)`: the leak
detection unit, as character lists. -/
def fragmentsOf (monologue : String) : List (List Char) :=
  ((splitPunctChars monologue.toList).map trimChars).filter
    (fun cs => 20 < cs.length)

/-- Contiguous-substring test on character lists. -/
def isInfixOfChars (needle : List Char) : List Char → Bool
  | [] => needle.isEmpty
  | c :: rest => isPrefixChars needle (c :: rest) || isInfixOfChars needle rest

/-- JS `hint.includes(fragment)` on a char-list fragment. -/
def hintContains (hint : String) (fragment : List Char) : Bool :=
  isInfixOfChars fragment hint.toList

/-- The fixed replacement text of the privacy filter. -/
def redactedNotice : String :=
  "[REDACTED BY PRIVACY FILTER: Attempted to leak internal monologue]"

/-- The programmatic anti-hallucination privacy filter applied to the
model-produced `strategic_hint`: scan the recent log book in order and
replace the whole hint at the first complete fragment it quotes.  An
absent monologue (modelled as `""`) contributes no fragments. -/
def redactHint (hint : String) : List ActionLogEntry → String
  | [] => hint
  | log :: rest =>
    if (fragmentsOf log.internal_monologue).any (fun f => hintContains hint f) then
      redactedNotice
    else redactHint hint rest

/-! ## Mutator (src/agents/mutator.ts) -/

/-- One variant of a `MutatorProposal` (src/schemas/meta.ts): strategy
text plus sampling hyperparameters. -/
structure VariantSpec where
  strategy_text : String
  temperature : ℚ
  frequency_penalty : ℚ
deriving Repr, DecidableEq

/-- Modelled from the spec: `mean(xs)` of `src/core/statistics.ts` (absent
from this snapshot; spec §4.10: arithmetic mean, zero for empty input). -/
def mean (xs : List ℚ) : ℚ :=
  if xs.isEmpty then 0 else xs.sum / xs.length

/-- Stable insertion (descending by key), matching the stable JS
`Array.prototype.sort` with comparator `b.meanScore - a.meanScore`. -/
def insertDescBy {α : Type} (key : α → ℚ) (x : α) : List α → List α
  | [] => [x]
  | y :: ys => if key y < key x then x :: y :: ys else y :: insertDescBy key x ys

/-- Stable descending sort by key. -/
def sortDescBy {α : Type} (key : α → ℚ) (l : List α) : List α :=
  l.foldl (fun acc x => insertDescBy key x acc) []

/-- One iteration of Phase B.2's running-best fold (lines 118-126): run
the full shadow trial, compute the variant's lower confidence bound, and
keep it only on strict improvement over the incumbent (`bestLCB` starts at
`-Infinity`, so the first survivor always becomes the incumbent). -/
def pickBestStep (runTrial : ActorAgent → Bool → List ℚ) (lcbFn : List ℚ → ℚ)
    (acc : Option (ActorAgent × List ℚ × ℚ)) (v : ActorAgent) :
    Option (ActorAgent × List ℚ × ℚ) :=
  let s := runTrial v false
  let l := lcbFn s
  match acc with
  | none => some (v, s, l)
  | some (w0, s0, bl) => if bl < l then some (v, s, l) else some (w0, s0, bl)

/-- Phase B.2 (lines 112-126): fold the survivors with `pickBestStep`,
carrying the winning variant, its shadow scores and its LCB. -/
def pickBest (runTrial : ActorAgent → Bool → List ℚ) (lcbFn : List ℚ → ℚ)
    (survivors : List ActorAgent) : Option (ActorAgent × List ℚ × ℚ) :=
  survivors.foldl (pickBestStep runTrial lcbFn) none

/-- Phase A variant instantiation (lines 85-90): an `ActorAgent` per
model-proposed variant, via `withMutatedStrategy`. -/
def variantsOf (agent : ActorAgent) (specs : List VariantSpec) : List ActorAgent :=
  specs.map (fun v =>
    withMutatedStrategy agent v.strategy_text (some (v.temperature, v.frequency_penalty)))

/-- The baseline: the target agent's score in each epoch result, `?? 0`
(line 115). -/
def baselineScoresOf (epochScores : List (List (String × ℚ))) (agent : ActorAgent) :
    List ℚ :=
  epochScores.map (fun scores => (lookupA scores agent.id).getD 0)

/-- Phase B.1 + culling: fast-prune every variant, sort descending by mean
fast score, keep the top `⌈n/2⌉`. -/
def survivorsOf (runTrial : ActorAgent → Bool → List ℚ) (variants : List ActorAgent) :
    List ActorAgent :=
  let fastPruneResults := variants.map (fun v => (v, mean (runTrial v true)))
  let sorted := sortDescBy (fun r => r.2) fastPruneResults
  (sorted.take ((sorted.length + 1) / 2)).map (fun r => r.1)

/-- `Mutator.evolve` (lines 48-145) as a function of the external
nondeterminism: the LLM's variant proposals (`specs`), the injected shadow
trial runner (`runTrial`), and the two statistics routines of the absent
`src/core/statistics.ts` — `lcbFn` stands for
`lowerConfidenceBound(·, config.acceptance_lcb_lambda)` and `pFn` for
`mannWhitneyUTest(·,·).pValue` (spec §4.10; `evolve`'s control flow reads
only their results).  `epochScores` are the per-episode score maps; Phase
A's failure slice feeds only the LLM prompt and cannot affect the result.
Returns the committed variant (or `none`) and the new plateau counter. -/
def evolve (plateau : Nat) (agent : ActorAgent)
    (epochScores : List (List (String × ℚ))) (cfg : FrameworkConfig)
    (specs : List VariantSpec) (runTrial : ActorAgent → Bool → List ℚ)
    (lcbFn : List ℚ → ℚ) (pFn : List ℚ → List ℚ → ℚ) :
    Option ActorAgent × Nat :=
  let survivors := survivorsOf runTrial (variantsOf agent specs)
  let baselineScores := baselineScoresOf epochScores agent
  let baselineScore := mean baselineScores
  match pickBest runTrial lcbFn survivors with
  | some (bestVariant, bestShadowScores, bestLCB) =>
    if baselineScore + cfg.improvement_margin < bestLCB ∧
        pFn bestShadowScores baselineScores < cfg.acceptance_p_value_threshold then
      (some bestVariant, 0)
    else (none, plateau + 1)
  | none => (none, plateau + 1)

/-- `Mutator.isPlateaued` (lines 152-154). -/
def isPlateaued (plateauCounter patience : Nat) : Bool :=
  patience ≤ plateauCounter

/-! ## Observation helpers and shared fixtures -/

/-- The environment as left behind by a `step` call (on a JS throw the
partially mutated `this` survives). -/
def StepOutcome.envOf : StepOutcome → Env
  | StepOutcome.ok env _ => env
  | StepOutcome.err _ env => env

/-- Whether a `step` call returned normally. -/
def StepOutcome.isOk : StepOutcome → Bool
  | StepOutcome.ok _ _ => true
  | StepOutcome.err _ _ => false

/-- Termination reason of a completed episode. -/
def episodeReason (r : Except StepErr (Env × List ActionLogEntry)) : String :=
  match r with
  | Except.ok (e, _) => e.terminationReason
  | Except.error _ => "<propagated>"

/-- Final `is_terminal` flag of a completed episode. -/
def episodeTerminal (r : Except StepErr (Env × List ActionLogEntry)) : Bool :=
  match r with
  | Except.ok (e, _) => e.state.is_terminal
  | Except.error _ => false

/-- Final `turn_number` of a completed episode. -/
def episodeFinalTurn (r : Except StepErr (Env × List ActionLogEntry)) : Nat :=
  match r with
  | Except.ok (e, _) => e.state.turn_number
  | Except.error _ => 0

/-- Final `state.variables` of a completed episode. -/
def episodeFinalVars (r : Except StepErr (Env × List ActionLogEntry)) : JObj :=
  match r with
  | Except.ok (e, _) => e.state.vars
  | Except.error _ => []

/-- The action log `runEpisode` returns — exactly the transcript
`runFullSimulation` hands to `judge.evaluate` (src/orchestrator.ts,
lines 270-276). -/
def episodeTranscript (r : Except StepErr (Env × List ActionLogEntry)) :
    List ActionLogEntry :=
  match r with
  | Except.ok (e, _) => e.actionLogs
  | Except.error _ => []

/-- The ghost record of every log entry ever appended during the episode. -/
def episodeFullLog (r : Except StepErr (Env × List ActionLogEntry)) :
    List ActionLogEntry :=
  match r with
  | Except.ok (_, g) => g
  | Except.error _ => []

/-- The spec's default configuration (§6 of the specification /
src/schemas/config.ts defaults). -/
def defaultCfg : FrameworkConfig :=
  { max_turns_per_episode := 20
    max_episode_tokens := 50000
    max_concurrency := 5
    epoch_size := 10
    mutation_variants := 3
    shadow_trial_count := 10
    improvement_margin := 1/2
    acceptance_lcb_lambda := 1
    acceptance_p_value_threshold := 1/20
    creation_patience := 5
    max_active_created_agents := 3
    creation_cooldown_generations := 3
    require_human_approval_for_creation := true
    max_validation_retries := 3
    forced_concession_threshold := 2
    scout_sweep_interval_generations := 5
    scout_on_new_ingredient := true
    info_disruptor_frequency := 3
    summarization_frequency := 5 }

/-- An empty initial state with no domain variables. -/
def emptyState : EnvState :=
  { turn_number := 0, current_speaker_id := "", is_terminal := false, vars := [] }

/-- A proposal with no mutations and both termination booleans false. -/
def quietProposal : ActionProposal :=
  { internal_monologue := "quiet thoughts"
    public_dialogue := "quiet words"
    state_mutations := []
    propose_resolution := false
    abort_episode := false }

/-- The JS guard `!(key in current) || typeof current[key] !== "object"`:
the node at `k` is absent or not a mapping. -/
def notObjectAt (vars : JObj) (k : String) : Bool :=
  match lookupJ vars k with
  | some (JValue.jobj _) => false
  | _ => true

/-- Scenario S1's environment: one primary actor, empty variables. -/
def s1Env : Env :=
  { Env.new emptyState with turnOrder := ["actor_a"] }

/-- Scenario S1's proposal: `[{action:"add", path:"concessions.y",
value:65}]`, both booleans false. -/
def s1Proposal : ActionProposal :=
  { internal_monologue := "thinking"
    public_dialogue := "speaking"
    state_mutations := [{ action := MutAction.add, path := "concessions.y", value := JValue.jnum 65 }]
    propose_resolution := false
    abort_episode := false }

/-- A configuration whose very first forced concession corrupts the
episode (`forced_concession_threshold = 1`). -/
def cfgThreshold1 : FrameworkConfig :=
  { defaultCfg with forced_concession_threshold := 1 }

/-- A fresh single-actor environment. -/
def soloEnv : Env :=
  { Env.new emptyState with turnOrder := ["agent_a"] }

/-- A proposal carrying `propose_resolution = true` and no mutations. -/
def resolveProposal : ActionProposal :=
  { internal_monologue := "ready to settle"
    public_dialogue := "I agree to the terms"
    state_mutations := []
    propose_resolution := true
    abort_episode := false }

/-- A fresh two-actor environment. -/
def pairEnv : Env :=
  { Env.new emptyState with turnOrder := ["actor_a", "actor_b"] }

/-- Script for the C2 counterexample: actor A proposes resolution on turn
0, actor B exhausts its retry budget on turn 1 (a penalized skip), actor A
proposes resolution again on turn 2. -/
def skipBetweenScript : Script := fun n =>
  if n == 1 then (none, 0) else (some resolveProposal, 0)

/-- An actor whose proposal fails schema validation on every retry of
every turn. -/
def allNoneScript : Script := fun _ => (none, 0)

/-- Configuration for the pruning scenario: prune every turn down to the
last `2 × 1` entries, three-turn episodes. -/
def pruneCfg : FrameworkConfig :=
  { defaultCfg with summarization_frequency := 1, max_turns_per_episode := 3 }

/-- An actor that always returns a quiet valid proposal. -/
def quietScript : Script := fun _ => (some quietProposal, 0)

/-- A proposal that adds `variables.x = 1` and aborts the episode. -/
def addXAbortProposal : ActionProposal :=
  { internal_monologue := "claim territory then leave"
    public_dialogue := "writing x"
    state_mutations := [{ action := MutAction.add, path := "x", value := JValue.jnum 1 }]
    propose_resolution := false
    abort_episode := true }

/-- A proposal that immediately aborts without touching the state. -/
def abortProposal : ActionProposal :=
  { internal_monologue := "walk away"
    public_dialogue := "leaving"
    state_mutations := []
    propose_resolution := false
    abort_episode := true }

/-- First episode of the cross-episode scenario: mutate then abort. -/
def crossEpisodeRun1 : Except StepErr (Env × List ActionLogEntry) :=
  runEpisode defaultCfg (fun _ => (some addXAbortProposal, 0)) soloEnv

/-- The `EnvironmentManager` instance as the first episode leaves it. -/
def crossEpisodeMidEnv : Env :=
  match crossEpisodeRun1 with
  | Except.ok (e, _) => e
  | Except.error _ => soloEnv

/-- Second `runEpisode` call on the same instance: abort immediately. -/
def crossEpisodeRun2 : Except StepErr (Env × List ActionLogEntry) :=
  runEpisode defaultCfg (fun _ => (some abortProposal, 0)) crossEpisodeMidEnv

/-- A Provisioner spec carrying the game-breaking `can_abort_episode`
capability. -/
def unsafeSpec : NewAgentProvisioning :=
  { agent_id := "broker_x"
    archetype := "broker"
    turn_injection_logic := "speak_every_1_turns"
    system_prompt := "negotiate from the middle"
    core_goals := ["bridge the gap"]
    permissions :=
      { can_modify_fields := ["subsidies"]
        cannot_modify_fields := ["concessions"]
        can_abort_episode := true
        can_propose_resolution := false
        max_state_mutations_per_turn := 1 }
    design_rationale := "break the deadlock" }

/-- Whether a mount attempt succeeded. -/
def mountOk : Except String (Env × ActorAgent) → Bool
  | Except.ok _ => true
  | Except.error _ => false

/-- The permissions registered for `id` after a mount attempt. -/
def mountPermsOf (r : Except String (Env × ActorAgent)) (id : String) :
    Option AgentPermissions :=
  match r with
  | Except.ok (e, _) => lookupA e.agentPermissions id
  | Except.error _ => none

/-- The turn order after a mount attempt. -/
def mountTurnOrder : Except String (Env × ActorAgent) → List String
  | Except.ok (e, _) => e.turnOrder
  | Except.error _ => []

/-- A 42-character monologue with no sentence punctuation: its only
detection fragment is the whole string. -/
def leakMonologue : String := "abcdefghijklmnopqrstuvwxyz0123456789ABCDEF"

/-- A model-produced hint quoting exactly the first 21 characters of
`leakMonologue` — longer than 20, yet not a complete fragment. -/
def leakHint : String := "abcdefghijklmnopqrstu"

/-- A recent log entry carrying `leakMonologue` as another actor's
internal monologue. -/
def leakLog : ActionLogEntry :=
  { turn := 0
    speakerId := "actor_b"
    internal_monologue := leakMonologue
    public_dialogue := "public words"
    state_mutations := []
    propose_resolution := false
    abort_episode := false }

/-- Concrete agent for the Mutator gate witness. -/
def gateAgent : ActorAgent :=
  { id := "agent_a"
    immutableCore := "core goals"
    mutableStrategy := "old strategy"
    hyperparameters := none }

/-- Concrete Mutator variant proposal for the gate witness. -/
def gateSpec : VariantSpec :=
  { strategy_text := "new strategy"
    temperature := 2
    frequency_penalty := 0 }

/-- The `withMutatedStrategy` copy the gate witness expects back. -/
def gateVariant : ActorAgent :=
  { id := "agent_a"
    immutableCore := "core goals"
    mutableStrategy := "new strategy"
    hyperparameters := some (2, 0) }

/-- Gate-witness configuration: integer-valued margins so the acceptance
comparison is kernel-evaluable. -/
def gateCfg : FrameworkConfig :=
  { defaultCfg with improvement_margin := 0, acceptance_p_value_threshold := 1 }

end SISC

/-! # Theorems -/

namespace SISC

/-- Keys written by `setA` are readable back. -/
theorem lookupA_setA_self {α : Type} (l : List (String × α)) (k : String) (v : α) :
    lookupA (setA l k v) k = some v := by
  induction l with
  | nil => simp [setA, lookupA]
  | cons hd tl ih =>
    obtain ⟨k', v'⟩ := hd
    by_cases h : k' = k
    · simp [setA, lookupA, h]
    · simp [setA, lookupA, h, ih]

/-- C8: applying a proposal's mutations walks each dotted path inside
`state.variables`: an `add` creates missing intermediate mapping nodes, a
`modify` whose intermediate node is missing (or not a mapping) is silently
a no-op, and the final value is deep-copied in (the identity in this pure
model); in particular the first-turn S1 proposal
`[{action:"add", path:"concessions.y", value:65}]` with both booleans
false leaves `variables.concessions.y == 65`, `turn_number == 1`, and
`is_terminal == false` after the step. -/
theorem claim8_mutation_path_semantics :
    (∀ (vars : JObj) (m : StateMutation) (k k2 : String) (rest : List String),
      m.action = MutAction.modify → splitPath m.path = k :: k2 :: rest →
      notObjectAt vars k = true →
      applyMutation vars m = vars) ∧
    (∀ (vars : JObj) (m : StateMutation) (k k2 : String),
      m.action = MutAction.add → splitPath m.path = [k, k2] →
      notObjectAt vars k = true →
      applyMutation vars m = setJ vars k (JValue.jobj [(k2, m.value)])) ∧
    (step defaultCfg s1Env (some s1Proposal) 0).isOk = true ∧
    (step defaultCfg s1Env (some s1Proposal) 0).envOf.state.vars =
      [("concessions", JValue.jobj [("y", JValue.jnum 65)])] ∧
    (step defaultCfg s1Env (some s1Proposal) 0).envOf.state.turn_number = 1 ∧
    (step defaultCfg s1Env (some s1Proposal) 0).envOf.state.is_terminal = false := by
  refine ⟨?_, ?_, rfl, rfl, rfl, rfl⟩
  · intro vars m k k2 rest hact hsplit hno
    unfold applyMutation
    rw [hsplit, hact]
    unfold notObjectAt at hno
    rcases hl : lookupJ vars k with _ | v
    · simp [mutGo, hl]
    · cases v <;> simp_all [mutGo, hl]
  · intro vars m k k2 hact hsplit hno
    unfold applyMutation
    rw [hsplit, hact]
    unfold notObjectAt at hno
    rcases hl : lookupJ vars k with _ | v
    · simp [mutGo, hl, setJ]
    · cases v <;> simp_all [mutGo, hl, setJ]

/-- Witness for C8: the `modify` no-op and the `add` intermediate-node
creation evaluated at concrete inputs. -/
theorem claim8_witness :
    applyMutation [("a", JValue.jnum 1)]
        { action := MutAction.modify, path := "b.c", value := JValue.jnum 2 } =
      [("a", JValue.jnum 1)] ∧
    applyMutation []
        { action := MutAction.add, path := "b.c", value := JValue.jnum 2 } =
      [("b", JValue.jobj [("c", JValue.jnum 2)])] := by
  constructor
  · exact claim8_mutation_path_semantics.1 _ _ "b" "c" [] rfl (by decide) rfl
  · have h := claim8_mutation_path_semantics.2.1 []
      { action := MutAction.add, path := "b.c", value := JValue.jnum 2 } "b" "c" rfl
      (by decide) rfl
    exact h

/-- C4: for every step in which the speaker has a registered permissions
record, if any proposed mutation's path starts with a denied prefix, or
starts with no allowed prefix, the step fails with a permission-violation
error and none of the proposal's mutations is applied to
`state.variables`; deny prefixes are checked before allow prefixes, and
speakers with no permissions record (primary actors) are unrestricted. -/
theorem claim4_permission_enforcement :
    (∀ (p : AgentPermissions) (path : String),
      p.cannot_modify_fields.any (fun denied => strStartsWith path denied) = true →
      isPermitted (some p) path = false) ∧
    (∀ (p : AgentPermissions) (path : String),
      isPermitted (some p) path =
        (!p.cannot_modify_fields.any (fun denied => strStartsWith path denied) &&
          p.can_modify_fields.any (fun allowed => strStartsWith path allowed))) ∧
    (∀ path : String, isPermitted none path = true) ∧
    (∀ (cfg : FrameworkConfig) (env : Env) (prop : ActionProposal) (tk : Nat)
        (perms : AgentPermissions),
      env.turnOrder.isEmpty = false →
      lookupA env.agentPermissions (currentSpeaker env) = some perms →
      prop.state_mutations.any (fun m => !(isPermitted (some perms) m.path)) = true →
      ∃ (m : StateMutation) (envE : Env),
        step cfg env (some prop) tk =
          StepOutcome.err (StepErr.permissionViolation (currentSpeaker env) m.path) envE ∧
        m ∈ prop.state_mutations ∧
        isPermitted (some perms) m.path = false ∧
        envE.state.vars = env.state.vars) ∧
    (∀ (cfg : FrameworkConfig) (env : Env) (prop : ActionProposal) (tk : Nat),
      env.turnOrder.isEmpty = false →
      lookupA env.agentPermissions (currentSpeaker env) = none →
      (step cfg env (some prop) tk).isOk = true) := by
  refine ⟨?_, ?_, ?_, ?_, ?_⟩
  · intro p path hdeny
    simp [isPermitted, hdeny]
  · intro p path
    by_cases hdeny : p.cannot_modify_fields.any (fun denied => strStartsWith path denied)
    · simp [isPermitted, hdeny]
    · simp [isPermitted, hdeny]
  · intro path
    rfl
  · intro cfg env prop tk perms hne hperms hany
    have hfind : (prop.state_mutations.find?
        (fun m => !(isPermitted (lookupA env.agentPermissions (currentSpeaker env)) m.path))).isSome := by
      rw [List.find?_isSome]
      obtain ⟨m, hmem, hm⟩ := List.any_eq_true.mp hany
      exact ⟨m, hmem, by rw [hperms]; exact hm⟩
    obtain ⟨m, hm⟩ := Option.isSome_iff_exists.mp hfind
    refine ⟨m, { env with state := { env.state with current_speaker_id := currentSpeaker env } },
      ?_, List.mem_of_find?_eq_some hm, ?_, rfl⟩
    · simp only [step, hne, Bool.false_eq_true, if_false, hm]
    · have := List.find?_some hm
      rw [hperms] at this
      simpa using this
  · intro cfg env prop tk hne hperms
    have hfind : prop.state_mutations.find?
        (fun m => !(isPermitted (lookupA env.agentPermissions (currentSpeaker env)) m.path)) = none := by
      rw [List.find?_eq_none]
      intro m _
      rw [hperms]
      simp [isPermitted]
    simp only [step, hne, Bool.false_eq_true, if_false, hfind, StepOutcome.isOk]

/-- Witness for C4: a created agent with allow-prefix `subsidies` and deny
prefix `concessions` is blocked on path `concessions.y` (scenario S5), and
an unregistered primary actor passes freely. -/
theorem claim4_witness :
    isPermitted
      (some { can_modify_fields := ["subsidies"]
              cannot_modify_fields := ["concessions"]
              can_abort_episode := false
              can_propose_resolution := false
              max_state_mutations_per_turn := 1 }) "concessions.y" = false ∧
    isPermitted none "concessions.y" = true :=
  ⟨claim4_permission_enforcement.1 _ "concessions.y" (by decide),
   claim4_permission_enforcement.2.2.1 "concessions.y"⟩

/-- C7 counterexample: a `step` call whose retry exhaustion reaches the
forced-concession threshold throws `EpisodeCorruptedError` and leaves
`turn_number` unchanged at 0 — so it is false that *every* step call
(the claim quantifies over all of them) increases `turn_number` by
exactly 1. -/
theorem claim7_counterexample :
    (step cfgThreshold1 soloEnv none 0).isOk = false ∧
    (step cfgThreshold1 soloEnv none 0).envOf.state.turn_number = 0 ∧
    soloEnv.state.turn_number = 0 :=
  ⟨rfl, rfl, rfl⟩

/-- C7 (amended): within an episode `turn_number` is monotonically
non-decreasing across every `step` call, and every call that returns
normally — including a penalized skip after retry exhaustion — increases
it by exactly 1; a call that throws (episode corruption, permission
violation, no mounted agent) leaves it unchanged. -/
theorem claim7_turn_monotonicity (cfg : FrameworkConfig) (env : Env)
    (input : Option ActionProposal) (tk : Nat) :
    (step cfg env input tk).envOf.state.turn_number =
      (if (step cfg env input tk).isOk then env.state.turn_number + 1
        else env.state.turn_number) ∧
    env.state.turn_number ≤ (step cfg env input tk).envOf.state.turn_number := by
  have h : (step cfg env input tk).envOf.state.turn_number =
      (if (step cfg env input tk).isOk then env.state.turn_number + 1
        else env.state.turn_number) := by
    unfold step
    by_cases hne : env.turnOrder.isEmpty
    · simp [hne, StepOutcome.envOf, StepOutcome.isOk]
    · cases input with
      | none =>
        by_cases hth : cfg.forced_concession_threshold ≤
            (lookupA env.penaltyCount (currentSpeaker env)).getD 0 + 1
        · simp [hne, hth, StepOutcome.envOf, StepOutcome.isOk]
        · simp [hne, hth, StepOutcome.envOf, StepOutcome.isOk]
      | some p =>
        cases hfind : p.state_mutations.find?
            (fun m => !(isPermitted (lookupA env.agentPermissions (currentSpeaker env)) m.path)) with
        | some m => simp [hne, hfind, StepOutcome.envOf, StepOutcome.isOk]
        | none => simp [hne, hfind, StepOutcome.envOf, StepOutcome.isOk, commitProposal]
  refine ⟨h, ?_⟩
  rw [h]
  split <;> omega

/-- Witness for the amended C7 theorem at a concrete penalized skip:
the turn number advances from 0 to 1. -/
theorem claim7_turn_monotonicity_witness :
    (step defaultCfg soloEnv none 0).envOf.state.turn_number =
      (if (step defaultCfg soloEnv none 0).isOk then soloEnv.state.turn_number + 1
        else soloEnv.state.turn_number) ∧
    soloEnv.state.turn_number ≤ (step defaultCfg soloEnv none 0).envOf.state.turn_number :=
  claim7_turn_monotonicity defaultCfg soloEnv none 0

/-- C2 counterexample: the episode terminates with reason `agreement` on
turn 2 even though the immediately preceding turn (turn 1) was a penalized
skip that produced no proposal at all — the two `propose_resolution=true`
proposals sit on turns 0 and 2, which are not consecutive.  The remembered
flag is simply left unchanged by a penalty turn, so the claimed
"two consecutive distinct turns" iff fails on the code. -/
theorem claim2_counterexample :
    episodeReason (runEpisode defaultCfg skipBetweenScript pairEnv) = "agreement" ∧
    episodeTerminal (runEpisode defaultCfg skipBetweenScript pairEnv) = true ∧
    episodeFinalTurn (runEpisode defaultCfg skipBetweenScript pairEnv) = 3 ∧
    (skipBetweenScript 1).1 = none ∧
    (skipBetweenScript 0).1 = some resolveProposal ∧
    (skipBetweenScript 2).1 = some resolveProposal :=
  ⟨rfl, rfl, rfl, rfl, rfl, rfl⟩

/-- C2 (amended): a step with a valid, fully permitted proposal marks the
state terminal with reason `agreement` iff the proposal sets
`propose_resolution`, does not set `abort_episode`, and the remembered
flag `lastProposalWasFinal` is true — i.e. the most recent *previous valid
proposal* carried `propose_resolution=true`; after every valid-proposal
step the flag is updated to the current proposal's `propose_resolution`
value, while a penalized skip leaves it unchanged. -/
theorem claim2_agreement_rule (cfg : FrameworkConfig) (env : Env)
    (p : ActionProposal) (tk : Nat)
    (hne : env.turnOrder.isEmpty = false)
    (hterm : env.state.is_terminal = false)
    (hperm : p.state_mutations.any
      (fun m => !(isPermitted (lookupA env.agentPermissions (currentSpeaker env)) m.path)) = false) :
    ∃ env', step cfg env (some p) tk = StepOutcome.ok env' tk ∧
      ((env'.state.is_terminal = true ∧ env'.terminationReason = "agreement") ↔
        (p.propose_resolution = true ∧ p.abort_episode = false ∧
          env.lastProposalWasFinal = true)) ∧
      env'.lastProposalWasFinal = p.propose_resolution ∧
      (∀ envP, step cfg env none tk = StepOutcome.ok envP tk →
        envP.lastProposalWasFinal = env.lastProposalWasFinal) := by
  have hfind : p.state_mutations.find?
      (fun m => !(isPermitted (lookupA env.agentPermissions (currentSpeaker env)) m.path)) = none := by
    rw [List.find?_eq_none]
    intro m hm
    have := List.any_eq_false.mp hperm m hm
    simpa using this
  refine ⟨commitProposal
      { env with state := { env.state with current_speaker_id := currentSpeaker env } }
      (currentSpeaker env) p, ?_, ?_, ?_, ?_⟩
  · simp only [step, hne, Bool.false_eq_true, if_false, hfind]
  · unfold commitProposal
    by_cases habort : p.abort_episode
    · simp [habort, hterm]
    · by_cases hcons : p.propose_resolution && env.lastProposalWasFinal
      · obtain ⟨h1, h2⟩ : p.propose_resolution = true ∧ env.lastProposalWasFinal = true := by
          simpa using hcons
        have habort' : p.abort_episode = false := by simpa using habort
        simp [habort', hcons, h1, h2]
      · simp only [habort, Bool.false_eq_true, if_false, hcons]
        simp only [Bool.and_eq_true, not_and] at hcons
        constructor
        · intro h
          exact absurd h.1 (by simp [hterm])
        · intro h
          exact absurd (hcons h.1) (by simp [h.2.2])
  · unfold commitProposal
    rfl
  · intro envP hP
    unfold step at hP
    simp only [hne, Bool.false_eq_true, if_false] at hP
    by_cases hth : cfg.forced_concession_threshold ≤
        (lookupA env.penaltyCount (currentSpeaker env)).getD 0 + 1
    · simp [hth] at hP
    · simp only [hth, if_false, if_neg hth] at hP
      cases hP
      rfl

/-- Witness for the amended C2 theorem: two consecutive valid
`propose_resolution` proposals in a fresh two-actor environment — the
second step (flag already raised) terminates with `agreement`. -/
theorem claim2_agreement_rule_witness :
    ∃ env', step defaultCfg { pairEnv with lastProposalWasFinal := true }
      (some resolveProposal) 0 = StepOutcome.ok env' 0 ∧
      ((env'.state.is_terminal = true ∧ env'.terminationReason = "agreement") ↔
        (resolveProposal.propose_resolution = true ∧ resolveProposal.abort_episode = false ∧
          { pairEnv with lastProposalWasFinal := true }.lastProposalWasFinal = true)) ∧
      env'.lastProposalWasFinal = resolveProposal.propose_resolution ∧
      (∀ envP, step defaultCfg { pairEnv with lastProposalWasFinal := true } none 0 =
          StepOutcome.ok envP 0 →
        envP.lastProposalWasFinal =
          { pairEnv with lastProposalWasFinal := true }.lastProposalWasFinal) :=
  claim2_agreement_rule defaultCfg { pairEnv with lastProposalWasFinal := true }
    resolveProposal 0 rfl rfl rfl

/-- Pruning is the identity on an empty action log. -/
theorem pruneLogs_of_nil (cfg : FrameworkConfig) (e : Env) (h : e.actionLogs = []) :
    pruneLogs cfg e = e := by
  unfold pruneLogs
  rw [h]
  simp

/-- Loop invariant for C9: starting at turn `k` with `k` accumulated
penalties for the sole actor, a script that always exhausts the retry
budget drives the episode to corruption at penalty count
`forced_concession_threshold`, with `turn_number` advanced once per
penalized skip (the corrupting call itself does not advance it). -/
theorem episodeLoop_allFail (cfg : FrameworkConfig) (a : String) (script : Script)
    (hscript : ∀ n, script n = (none, 0)) (fuel : Nat) :
    ∀ (k : Nat) (env : Env),
      env.turnOrder = [a] →
      env.state.is_terminal = false →
      env.state.turn_number = k →
      env.terminationReason = "timeout" →
      env.actionLogs = [] →
      (lookupA env.penaltyCount a).getD 0 = k →
      k < cfg.forced_concession_threshold →
      cfg.forced_concession_threshold ≤ cfg.max_turns_per_episode →
      cfg.forced_concession_threshold ≤ k + fuel →
      ∃ envF, episodeLoop cfg script fuel 0 [] env = Except.ok (envF, []) ∧
        envF.terminationReason = "corrupted" ∧
        envF.state.is_terminal = true ∧
        envF.actionLogs = [] ∧
        envF.state.turn_number = cfg.forced_concession_threshold - 1 := by
  induction fuel with
  | zero =>
    intro k env _ _ _ _ _ _ hk _ hfuel
    omega
  | succ fuel ih =>
    intro k env horder hterm hturn hreason hlogs hpen hk hth hfuel
    have hspeaker : currentSpeaker env = a := by
      simp [currentSpeaker, horder, Nat.mod_one]
    have hguard : (env.state.is_terminal ||
        decide (cfg.max_turns_per_episode ≤ env.state.turn_number)) = false := by
      simp [hterm, hturn]
      omega
    have hne : env.turnOrder.isEmpty = false := by
      simp [horder]
    by_cases hcorrupt : cfg.forced_concession_threshold ≤ k + 1
    · -- the corrupting call: `turn_number` is not advanced
      have hstep : step cfg env none 0 = StepOutcome.err (StepErr.episodeCorrupted a)
          { env with
            state := { env.state with current_speaker_id := a, is_terminal := true }
            penaltyCount := setA env.penaltyCount a (k + 1) } := by
        simp [step, hne, hspeaker, hpen, hcorrupt]
      refine ⟨{ env with
          state := { env.state with current_speaker_id := a, is_terminal := true }
          penaltyCount := setA env.penaltyCount a (k + 1)
          terminationReason := "corrupted" }, ?_, rfl, rfl, by simpa using hlogs, ?_⟩
      · simp only [episodeLoop, hguard, Bool.false_eq_true, if_false]
        rw [if_neg (by omega : ¬ cfg.max_episode_tokens < 0), hscript, hstep]
      · simp only []
        show env.state.turn_number = cfg.forced_concession_threshold - 1
        omega
    · -- a penalized skip: `turn_number` advances and the loop recurses
      have hstep : step cfg env none 0 = StepOutcome.ok
          { env with
            state := { env.state with
              current_speaker_id := a
              turn_number := env.state.turn_number + 1 }
            penaltyCount := setA env.penaltyCount a (k + 1) } 0 := by
        simp [step, hne, hspeaker, hpen, hcorrupt]
      obtain ⟨envF, heq, h1, h2, h3, h4⟩ := ih (k + 1)
        { env with
          state := { env.state with
            current_speaker_id := a
            turn_number := env.state.turn_number + 1 }
          penaltyCount := setA env.penaltyCount a (k + 1) }
        (by simpa using horder) (by simpa using hterm) (by simpa using hturn)
        (by simpa using hreason) (by simpa using hlogs)
        (by simp [lookupA_setA_self]) (by omega) hth (by omega)
      refine ⟨envF, ?_, h1, h2, h3, h4⟩
      simp only [episodeLoop, hguard, Bool.false_eq_true, if_false]
      rw [if_neg (by omega : ¬ cfg.max_episode_tokens < 0), hscript, hstep]
      dsimp only
      rw [pruneLogs_of_nil cfg _ (by simpa using hlogs)]
      simpa [hlogs] using heq

/-- C9: if an actor's proposal fails schema validation on every retry of
every turn, then after `forced_concession_threshold` full retry cycles the
episode ends with `is_terminal` true and termination reason `corrupted`;
`turn_number` is advanced by the number of penalized skips
(`forced_concession_threshold - 1` — the final, corrupting cycle throws
before advancing it), and no log entry is ever appended. -/
theorem claim9_corruption_after_threshold (cfg : FrameworkConfig) (a : String)
    (script : Script) (env : Env)
    (hscript : ∀ n, script n = (none, 0))
    (horder : env.turnOrder = [a])
    (hone : 1 ≤ cfg.forced_concession_threshold)
    (hmax : cfg.forced_concession_threshold ≤ cfg.max_turns_per_episode) :
    ∃ envF, runEpisode cfg script env = Except.ok (envF, []) ∧
      envF.terminationReason = "corrupted" ∧
      envF.state.is_terminal = true ∧
      envF.actionLogs = [] ∧
      envF.state.turn_number = cfg.forced_concession_threshold - 1 := by
  unfold runEpisode
  exact episodeLoop_allFail cfg a script hscript (cfg.max_turns_per_episode + 1) 0
    (resetEpisode env) (by simpa [resetEpisode] using horder) rfl rfl rfl rfl
    (by simp [resetEpisode, lookupA]) (by omega) hmax (by omega)

/-- Witness for C9: with the default configuration
(`forced_concession_threshold = 2`), an always-failing single actor ends
the episode corrupted at `turn_number = 1` (one penalized skip). -/
theorem claim9_corruption_witness :
    ∃ envF, runEpisode defaultCfg allNoneScript soloEnv = Except.ok (envF, []) ∧
      envF.terminationReason = "corrupted" ∧
      envF.state.is_terminal = true ∧
      envF.actionLogs = [] ∧
      envF.state.turn_number = defaultCfg.forced_concession_threshold - 1 :=
  claim9_corruption_after_threshold defaultCfg "agent_a" allNoneScript soloEnv
    (fun _ => rfl) rfl (by decide) (by decide)

/-- A `step` that returns normally only ever appends to the action log. -/
theorem step_ok_appends (cfg : FrameworkConfig) (env : Env)
    (input : Option ActionProposal) (tk : Nat) (env' : Env) (tk' : Nat)
    (h : step cfg env input tk = StepOutcome.ok env' tk') :
    ∃ newEntries, env'.actionLogs = env.actionLogs ++ newEntries := by
  unfold step at h
  by_cases hne : env.turnOrder.isEmpty
  · simp [hne] at h
  · simp only [hne, Bool.false_eq_true, if_false] at h
    cases input with
    | none =>
      by_cases hth : cfg.forced_concession_threshold ≤
          (lookupA env.penaltyCount (currentSpeaker env)).getD 0 + 1
      · simp [hth] at h
      · simp only [if_neg hth] at h
        cases h
        exact ⟨[], by simp⟩
    | some p =>
      cases hfind : p.state_mutations.find?
          (fun m => !(isPermitted (lookupA env.agentPermissions (currentSpeaker env)) m.path)) with
      | some m => simp [hfind] at h
      | none =>
        simp only [hfind] at h
        cases h
        exact ⟨_, rfl⟩

/-- A `step` that throws leaves the action log untouched. -/
theorem step_err_logs (cfg : FrameworkConfig) (env : Env)
    (input : Option ActionProposal) (tk : Nat) (e : StepErr) (envE : Env)
    (h : step cfg env input tk = StepOutcome.err e envE) :
    envE.actionLogs = env.actionLogs := by
  unfold step at h
  by_cases hne : env.turnOrder.isEmpty
  · simp only [hne, if_true] at h
    cases h
    rfl
  · simp only [hne, Bool.false_eq_true, if_false] at h
    cases input with
    | none =>
      by_cases hth : cfg.forced_concession_threshold ≤
          (lookupA env.penaltyCount (currentSpeaker env)).getD 0 + 1
      · simp only [if_pos hth] at h
        cases h
        rfl
      · simp [if_neg hth] at h
    | some p =>
      cases hfind : p.state_mutations.find?
          (fun m => !(isPermitted (lookupA env.agentPermissions (currentSpeaker env)) m.path)) with
      | some m =>
        simp only [hfind] at h
        cases h
        rfl
      | none => simp [hfind] at h

/-- Appending on the right preserves the suffix relation. -/
theorem isSuffix_append_right {α : Type} {l₁ l₂ : List α} (t : List α)
    (h : List.IsSuffix l₁ l₂) : List.IsSuffix (l₁ ++ t) (l₂ ++ t) := by
  obtain ⟨w, hw⟩ := h
  exact ⟨w, by rw [← hw, List.append_assoc]⟩

/-- Pruning only replaces the action log by one of its suffixes. -/
theorem pruneLogs_suffix (cfg : FrameworkConfig) (e : Env) :
    pruneLogs cfg e = e ∨
    ∃ logs', pruneLogs cfg e = { e with actionLogs := logs' } ∧
      List.IsSuffix logs' e.actionLogs := by
  unfold pruneLogs
  by_cases h1 : (decide (e.state.turn_number > 0) &&
      e.state.turn_number % cfg.summarization_frequency == 0) = true
  · rw [if_pos h1]
    by_cases h2 : cfg.summarization_frequency * 2 < e.actionLogs.length
    · exact Or.inr ⟨_, by rw [if_pos h2], by unfold takeLast; exact List.drop_suffix _ _⟩
    · exact Or.inl (by rw [if_neg h2])
  · exact Or.inl (by rw [if_neg h1])

/-- Loop invariant for C3: the live action log is always a contiguous
suffix of the ghost record of every entry ever appended. -/
theorem episodeLoop_suffix (cfg : FrameworkConfig) (script : Script) (fuel : Nat) :
    ∀ (tokens : Nat) (ghost : List ActionLogEntry) (env : Env),
      List.IsSuffix env.actionLogs ghost →
      ∀ envF ghostF, episodeLoop cfg script fuel tokens ghost env = Except.ok (envF, ghostF) →
      List.IsSuffix envF.actionLogs ghostF := by
  induction fuel with
  | zero =>
    intro tokens ghost env hsuf envF ghostF h
    simp only [episodeLoop] at h
    cases h
    exact hsuf
  | succ fuel ih =>
    intro tokens ghost env hsuf envF ghostF h
    simp only [episodeLoop] at h
    by_cases hdone : (env.state.is_terminal ||
        decide (cfg.max_turns_per_episode ≤ env.state.turn_number)) = true
    · rw [if_pos hdone] at h
      cases h
      exact hsuf
    · rw [if_neg hdone] at h
      by_cases htok : cfg.max_episode_tokens < tokens
      · rw [if_pos htok] at h
        cases h
        exact hsuf
      · rw [if_neg htok] at h
        rcases hscr : script env.state.turn_number with ⟨input, tk⟩
        rw [hscr] at h
        dsimp only at h
        cases hstep : step cfg env input tk with
        | ok env' tk' =>
          rw [hstep] at h
          dsimp only at h
          obtain ⟨newEntries, hnew⟩ := step_ok_appends cfg env input tk env' tk' hstep
          have hghost : env'.actionLogs.drop env.actionLogs.length = newEntries := by
            rw [hnew, List.drop_left]
          have hsuf' : List.IsSuffix env'.actionLogs (ghost ++ newEntries) := by
            rw [hnew]
            exact isSuffix_append_right newEntries hsuf
          have hsufPruned : List.IsSuffix (pruneLogs cfg env').actionLogs (ghost ++ newEntries) := by
            rcases pruneLogs_suffix cfg env' with hp | ⟨logs', hp, hls⟩
            · rw [hp]; exact hsuf'
            · rw [hp]; exact hls.trans hsuf'
          rw [hghost] at h
          exact ih (tokens + tk') (ghost ++ newEntries) (pruneLogs cfg env') hsufPruned envF ghostF h
        | err e envE =>
          rw [hstep] at h
          cases e with
          | episodeCorrupted s =>
            cases h
            have hlog := step_err_logs cfg env input tk _ envE hstep
            simpa [hlog] using hsuf
          | noAgent s => simp at h
          | permissionViolation s p => simp at h

/-- C3 (amended): the transcript `runEpisode` returns — the very list the
orchestrator hands to the Critic — is the live action log at episode end,
which is a contiguous suffix of the full sequence of entries ever
appended: pruning drops the oldest entries from the one live log that the
Critic and subsequent actors both read. -/
theorem claim3_critic_transcript_suffix (cfg : FrameworkConfig) (script : Script)
    (env : Env) (envF : Env) (ghostF : List ActionLogEntry)
    (h : runEpisode cfg script env = Except.ok (envF, ghostF)) :
    List.IsSuffix envF.actionLogs ghostF := by
  unfold runEpisode at h
  exact episodeLoop_suffix cfg script (cfg.max_turns_per_episode + 1) 0 []
    (resetEpisode env) (by simp [resetEpisode]) envF ghostF h

/-- Witness for the amended C3 theorem at the concrete pruning scenario. -/
theorem claim3_critic_transcript_suffix_witness :
    List.IsSuffix (episodeTranscript (runEpisode pruneCfg quietScript soloEnv))
      (episodeFullLog (runEpisode pruneCfg quietScript soloEnv)) := by
  rcases hrun : runEpisode pruneCfg quietScript soloEnv with e | ⟨envF, ghostF⟩
  · simp [episodeTranscript, episodeFullLog]
  · have hs := claim3_critic_transcript_suffix pruneCfg quietScript soloEnv envF ghostF hrun
    simpa [episodeTranscript, episodeFullLog] using hs

/-- C3 counterexample: with `summarization_frequency = 1` and a three-turn
episode, three entries are appended but the transcript `runEpisode`
returns — and the orchestrator hands to the Critic — holds only the last
two: the Critic does **not** receive the full, unpruned action log. -/
theorem claim3_counterexample :
    (episodeFullLog (runEpisode pruneCfg quietScript soloEnv)).length = 3 ∧
    (episodeTranscript (runEpisode pruneCfg quietScript soloEnv)).length = 2 ∧
    episodeTranscript (runEpisode pruneCfg quietScript soloEnv) ≠
      episodeFullLog (runEpisode pruneCfg quietScript soloEnv) := by
  refine ⟨rfl, rfl, fun hcontra => ?_⟩
  have := congrArg List.length hcontra
  simp only [show (episodeFullLog (runEpisode pruneCfg quietScript soloEnv)).length = 3 from rfl,
    show (episodeTranscript (runEpisode pruneCfg quietScript soloEnv)).length = 2 from rfl] at this
  omega

/-- C10: `runEpisode` resets `turn_number`, `is_terminal`, the action log,
the penalty counters, and the consecutive-agreement flag, but does not
restore `state.variables`: the initial state is deep-copied only once, in
the constructor, so a second `runEpisode` call on the same
`EnvironmentManager` instance starts from the variables the previous
episode left behind. -/
theorem claim10_reset_keeps_variables :
    (∀ env : Env,
      (resetEpisode env).state.vars = env.state.vars ∧
      (resetEpisode env).state.turn_number = 0 ∧
      (resetEpisode env).state.is_terminal = false ∧
      (resetEpisode env).actionLogs = [] ∧
      (resetEpisode env).penaltyCount = [] ∧
      (resetEpisode env).lastProposalWasFinal = false ∧
      (resetEpisode env).terminationReason = "timeout") ∧
    (∀ st : EnvState, (Env.new st).state = st) ∧
    lookupJ crossEpisodeMidEnv.state.vars "x" = some (JValue.jnum 1) ∧
    crossEpisodeMidEnv.state.is_terminal = true ∧
    lookupJ (episodeFinalVars crossEpisodeRun2) "x" = some (JValue.jnum 1) ∧
    episodeFinalVars crossEpisodeRun2 = crossEpisodeMidEnv.state.vars ∧
    episodeFinalTurn crossEpisodeRun2 = 1 ∧
    episodeReason crossEpisodeRun2 = "abort_episode" := by
  exact ⟨fun env => ⟨rfl, rfl, rfl, rfl, rfl, rfl, rfl⟩, fun st => rfl,
    rfl, rfl, rfl, rfl, rfl, rfl⟩

/-- C5 counterexample: `mountAgent` accepts a spec whose permissions set
`can_abort_episode = true` — the mount succeeds, the permissions are
registered, and the new id is inserted into the turn order.  The source's
only checks in `mountAgent` are Zod schema validation and the spawn cap;
the capability guard lives in `Provisioner.designAgent`. -/
theorem claim5_counterexample :
    mountOk (mountAgent defaultCfg soloEnv unsafeSpec) = true ∧
    mountPermsOf (mountAgent defaultCfg soloEnv unsafeSpec) "broker_x" =
      some unsafeSpec.permissions ∧
    mountTurnOrder (mountAgent defaultCfg soloEnv unsafeSpec) = ["agent_a", "broker_x"] ∧
    unsafeSpec.permissions.can_abort_episode = true :=
  ⟨rfl, rfl, rfl, rfl⟩

/-- C5 (amended): the rejection of `can_abort_episode=true`,
`can_propose_resolution=true`, or `max_state_mutations_per_turn > 3` is
enforced by `Provisioner.designAgent` (which throws
`UnsafeAgentDesignError` after generation), not by `mountAgent`:
`mountAgent` performs only schema validation and the spawn cap and, given
spare capacity, registers such a spec's permissions and mounts the
agent. -/
theorem claim5_unsafe_guard_location (spec : NewAgentProvisioning)
    (hbad : spec.permissions.can_abort_episode = true ∨
      spec.permissions.can_propose_resolution = true ∨
      3 < spec.permissions.max_state_mutations_per_turn) :
    (∃ msg, designAgentGuard spec = Except.error msg) ∧
    ∀ (cfg : FrameworkConfig) (env : Env),
      (env.turnOrder.filter (fun id => env.createdAgentIds.contains id)).length <
        cfg.max_active_created_agents →
      ∃ env' agent, mountAgent cfg env spec = Except.ok (env', agent) ∧
        lookupA env'.agentPermissions spec.agent_id = some spec.permissions ∧
        agent.id = spec.agent_id ∧
        agent.immutableCore = spec.system_prompt ∧
        agent.mutableStrategy = "" := by
  constructor
  · unfold designAgentGuard
    split_ifs with h1 h2 h3
    · exact ⟨_, rfl⟩
    · exact ⟨_, rfl⟩
    · exact ⟨_, rfl⟩
    · rcases hbad with h | h | h
      · exact absurd h (by simpa using h1)
      · exact absurd h (by simpa using h2)
      · exact absurd h h3
  · intro cfg env hcap
    refine ⟨{ env with
        agentPermissions := setA env.agentPermissions spec.agent_id spec.permissions
        createdAgentIds :=
          if env.createdAgentIds.contains spec.agent_id then env.createdAgentIds
          else env.createdAgentIds ++ [spec.agent_id]
        turnOrder := insertEvery env.turnOrder
          (parseTurnInjection spec.turn_injection_logic) spec.agent_id },
      { id := spec.agent_id
        immutableCore := spec.system_prompt
        mutableStrategy := ""
        hyperparameters := none },
      ?_, lookupA_setA_self _ _ _, rfl, rfl, rfl⟩
    unfold mountAgent
    rw [if_neg (by omega)]

/-- Witness for the amended C5 theorem: the unsafe broker spec is rejected
by the Provisioner guard yet mounts fine into a fresh environment. -/
theorem claim5_unsafe_guard_witness :
    (∃ msg, designAgentGuard unsafeSpec = Except.error msg) ∧
    (∃ env' agent, mountAgent defaultCfg soloEnv unsafeSpec = Except.ok (env', agent) ∧
      lookupA env'.agentPermissions unsafeSpec.agent_id = some unsafeSpec.permissions ∧
      agent.id = unsafeSpec.agent_id ∧
      agent.immutableCore = unsafeSpec.system_prompt ∧
      agent.mutableStrategy = "") := by
  have h := claim5_unsafe_guard_location unsafeSpec (Or.inl rfl)
  exact ⟨h.1, h.2 defaultCfg soloEnv (by decide)⟩

/-- C6 counterexample: the privacy filter's detection unit is the complete
sentence-split fragment, not the arbitrary substring.  A hint that quotes
the first 21 characters of another actor's 42-character unpunctuated
monologue passes the filter unredacted, yet it *is* a substring of that
monologue of length greater than 20 — so the claimed "no substring of
length > 20" guarantee fails on the code. -/
theorem claim6_counterexample :
    redactHint leakHint [leakLog] = leakHint ∧
    isInfixOfChars leakHint.toList leakMonologue.toList = true ∧
    20 < leakHint.toList.length :=
  ⟨rfl, by decide, by decide⟩

/-- Characterization of the privacy filter: either some scanned fragment
matched and the whole hint was replaced by the fixed notice, or nothing
matched and the hint passes through with no log's fragment contained in
it. -/
theorem redactHint_characterization (hint : String) (logs : List ActionLogEntry) :
    redactHint hint logs = redactedNotice ∨
    (redactHint hint logs = hint ∧
      ∀ log ∈ logs, ∀ f ∈ fragmentsOf log.internal_monologue,
        hintContains hint f = false) := by
  induction logs with
  | nil => exact Or.inr ⟨rfl, by simp⟩
  | cons log rest ih =>
    unfold redactHint
    by_cases hmatch : (fragmentsOf log.internal_monologue).any
        (fun f => hintContains hint f) = true
    · rw [if_pos hmatch]
      exact Or.inl rfl
    · rw [if_neg hmatch]
      rcases ih with h | ⟨h1, h2⟩
      · exact Or.inl h
      · refine Or.inr ⟨h1, ?_⟩
        intro l hl f hf
        rcases List.mem_cons.mp hl with heq | hl'
        · subst heq
          have hall : ∀ g ∈ fragmentsOf l.internal_monologue,
              ¬ hintContains hint g = true := List.any_eq_false.mp (by simpa using hmatch)
          simpa using hall f hf
        · exact h2 l hl' f hf

/-- C6 (amended): after redaction the strategic hint contains no
*complete* sentence-punctuation fragment (trimmed, longer than 20
characters — the filter's detection unit) of any recent actor's internal
monologue, except that a detected leak replaces the hint with the fixed
redaction notice; substrings that are not complete fragments are outside
the filter's guarantee. -/
theorem claim6_no_fragment_leak (hint : String) (logs : List ActionLogEntry) :
    redactHint hint logs = redactedNotice ∨
    ∀ log ∈ logs, ∀ f ∈ fragmentsOf log.internal_monologue,
      hintContains (redactHint hint logs) f = false := by
  rcases redactHint_characterization hint logs with h | ⟨h1, h2⟩
  · exact Or.inl h
  · right
    rw [h1]
    exact h2

/-- Witness for the amended C6 theorem at the concrete leak scenario. -/
theorem claim6_no_fragment_leak_witness :
    redactHint leakHint [leakLog] = redactedNotice ∨
    ∀ log ∈ [leakLog], ∀ f ∈ fragmentsOf log.internal_monologue,
      hintContains (redactHint leakHint [leakLog]) f = false :=
  claim6_no_fragment_leak leakHint [leakLog]

/-- A partially folded Phase B.2 accumulator records a genuine trial: the
stored scores are the variant's shadow scores and the stored bound is
their LCB. -/
theorem pickBest_fold_wf (runTrial : ActorAgent → Bool → List ℚ)
    (lcbFn : List ℚ → ℚ) :
    ∀ (l : List ActorAgent) (acc : Option (ActorAgent × List ℚ × ℚ)),
      (∀ w0 s0 l0, acc = some (w0, s0, l0) → s0 = runTrial w0 false ∧ l0 = lcbFn s0) →
      ∀ w s lv, l.foldl (pickBestStep runTrial lcbFn) acc = some (w, s, lv) →
        s = runTrial w false ∧ lv = lcbFn s := by
  intro l
  induction l with
  | nil =>
    intro acc hacc w s lv h
    exact hacc w s lv h
  | cons v rest ih =>
    intro acc hacc w s lv h
    refine ih (pickBestStep runTrial lcbFn acc v) ?_ w s lv h
    intro w0 s0 l0 hstep
    unfold pickBestStep at hstep
    rcases acc with _ | ⟨⟨wa, sa, la⟩⟩
    · simp at hstep
      obtain ⟨h1, h2, h3⟩ := hstep
      subst h1; subst h2; subst h3
      exact ⟨rfl, rfl⟩
    · dsimp at hstep
      by_cases hlt : la < lcbFn (runTrial v false)
      · rw [if_pos hlt] at hstep
        simp at hstep
        obtain ⟨h1, h2, h3⟩ := hstep
        subst h1; subst h2; subst h3
        exact ⟨rfl, rfl⟩
      · rw [if_neg hlt] at hstep
        simp at hstep
        obtain ⟨h1, h2, h3⟩ := hstep
        subst h1; subst h2; subst h3
        exact hacc _ _ _ rfl

/-- The Phase B.2 winner comes from the accumulator or the survivor
list. -/
theorem pickBest_fold_mem (runTrial : ActorAgent → Bool → List ℚ)
    (lcbFn : List ℚ → ℚ) :
    ∀ (l : List ActorAgent) (acc : Option (ActorAgent × List ℚ × ℚ)) (w : ActorAgent)
      (s : List ℚ) (lv : ℚ),
      l.foldl (pickBestStep runTrial lcbFn) acc = some (w, s, lv) →
      acc = some (w, s, lv) ∨ w ∈ l := by
  intro l
  induction l with
  | nil =>
    intro acc w s lv h
    exact Or.inl h
  | cons v rest ih =>
    intro acc w s lv h
    rcases ih (pickBestStep runTrial lcbFn acc v) w s lv h with hstep | hmem
    · unfold pickBestStep at hstep
      rcases acc with _ | ⟨⟨wa, sa, la⟩⟩
      · simp at hstep
        exact Or.inr (by simp [hstep.1])
      · dsimp at hstep
        by_cases hlt : la < lcbFn (runTrial v false)
        · rw [if_pos hlt] at hstep
          simp at hstep
          exact Or.inr (by simp [hstep.1])
        · rw [if_neg hlt] at hstep
          simp at hstep
          exact Or.inl (by simp [hstep.1, hstep.2.1, hstep.2.2])
    · exact Or.inr (List.mem_cons_of_mem v hmem)

/-- The Phase B.2 winner's LCB dominates every survivor's LCB (and every
incumbent's). -/
theorem pickBest_fold_max (runTrial : ActorAgent → Bool → List ℚ)
    (lcbFn : List ℚ → ℚ) :
    ∀ (l : List ActorAgent) (acc : Option (ActorAgent × List ℚ × ℚ)) (w : ActorAgent)
      (s : List ℚ) (lv : ℚ),
      l.foldl (pickBestStep runTrial lcbFn) acc = some (w, s, lv) →
      (∀ v ∈ l, lcbFn (runTrial v false) ≤ lv) ∧
      (∀ w0 s0 l0, acc = some (w0, s0, l0) → l0 ≤ lv) := by
  intro l
  induction l with
  | nil =>
    intro acc w s lv h
    refine ⟨by simp, ?_⟩
    intro w0 s0 l0 hacc
    rw [hacc] at h
    simp at h
    rw [h.2.2]
  | cons v rest ih =>
    intro acc w s lv h
    obtain ⟨hrest, hacc⟩ := ih (pickBestStep runTrial lcbFn acc v) w s lv h
    have hv : lcbFn (runTrial v false) ≤ lv := by
      unfold pickBestStep at hacc
      rcases acc with _ | ⟨⟨wa, sa, la⟩⟩
      · exact (hacc v (runTrial v false) (lcbFn (runTrial v false)) rfl).trans (le_refl _)
      · dsimp at hacc
        by_cases hlt : la < lcbFn (runTrial v false)
        · rw [if_pos hlt] at hacc
          exact hacc v _ _ rfl
        · rw [if_neg hlt] at hacc
          exact (le_of_not_lt hlt).trans (hacc wa sa la rfl)
    refine ⟨?_, ?_⟩
    · intro u hu
      rcases List.mem_cons.mp hu with heq | hu'
      · subst heq; exact hv
      · exact hrest u hu'
    · intro w0 s0 l0 h0
      unfold pickBestStep at hacc
      rw [h0] at hacc
      dsimp at hacc
      by_cases hlt : l0 < lcbFn (runTrial v false)
      · rw [if_pos hlt] at hacc
        exact (le_of_lt hlt).trans (hacc v _ _ rfl)
      · rw [if_neg hlt] at hacc
        exact hacc w0 s0 l0 rfl

/-- Membership through the stable descending insertion. -/
theorem mem_insertDescBy {α : Type} (key : α → ℚ) (x y : α) :
    ∀ l : List α, y ∈ insertDescBy key x l ↔ y = x ∨ y ∈ l := by
  intro l
  induction l with
  | nil => simp [insertDescBy]
  | cons h t ih =>
    unfold insertDescBy
    by_cases hk : key h < key x
    · rw [if_pos hk]
      simp
    · rw [if_neg hk]
      simp only [List.mem_cons, ih]
      tauto

/-- Membership through the stable descending sort. -/
theorem mem_sortDescBy {α : Type} (key : α → ℚ) :
    ∀ (l : List α) (acc : List α) (y : α),
      y ∈ l.foldl (fun acc x => insertDescBy key x acc) acc ↔ y ∈ acc ∨ y ∈ l := by
  intro l
  induction l with
  | nil => simp
  | cons h t ih =>
    intro acc y
    simp only [List.foldl_cons, ih, mem_insertDescBy, List.mem_cons]
    tauto

/-- Every Phase B survivor is one of the Phase A variants. -/
theorem survivorsOf_subset (runTrial : ActorAgent → Bool → List ℚ)
    (variants : List ActorAgent) (w : ActorAgent)
    (hw : w ∈ survivorsOf runTrial variants) : w ∈ variants := by
  unfold survivorsOf at hw
  obtain ⟨⟨v, m⟩, hmem, heq⟩ := List.mem_map.mp hw
  have hsorted := List.mem_of_mem_take hmem
  unfold sortDescBy at hsorted
  have := (mem_sortDescBy (fun r => r.2) _ [] (v, m)).mp hsorted
  simp only [List.not_mem_nil, false_or] at this
  obtain ⟨u, hu, hpair⟩ := List.mem_map.mp this
  cases hpair
  subst heq
  exact hu

/-- A Phase A variant is a `withMutatedStrategy` copy of the original:
same id, same immutable core. -/
theorem variantsOf_preserves_core (agent : ActorAgent) (specs : List VariantSpec)
    (w : ActorAgent) (hw : w ∈ variantsOf agent specs) :
    w.id = agent.id ∧ w.immutableCore = agent.immutableCore := by
  obtain ⟨v, _, heq⟩ := List.mem_map.mp hw
  subst heq
  exact ⟨rfl, rfl⟩

/-- C1: for every call to `Mutator.evolve` — over every set of
LLM-proposed variants, every shadow-trial outcome, and every behaviour of
the statistics routines — the best surviving variant is committed
(returned as a `withMutatedStrategy` copy of the original, with the
plateau counter reset to 0) if and only if both its lower confidence
bound exceeds the baseline mean plus `improvement_margin` and the
Mann-Whitney p-value of its shadow scores against the baseline scores is
below `acceptance_p_value_threshold`; otherwise `evolve` increments the
plateau counter and returns no improvement, and `isPlateaued(patience)`
holds exactly when the plateau counter is at least `patience`. -/
theorem claim1_mutator_acceptance_gate (plateau : Nat) (agent : ActorAgent)
    (epochScores : List (List (String × ℚ))) (cfg : FrameworkConfig)
    (specs : List VariantSpec) (runTrial : ActorAgent → Bool → List ℚ)
    (lcbFn : List ℚ → ℚ) (pFn : List ℚ → List ℚ → ℚ) :
    (∀ w, (evolve plateau agent epochScores cfg specs runTrial lcbFn pFn).1 = some w ↔
      (∃ s l, pickBest runTrial lcbFn (survivorsOf runTrial (variantsOf agent specs)) =
          some (w, s, l) ∧
        mean (baselineScoresOf epochScores agent) + cfg.improvement_margin < l ∧
        pFn s (baselineScoresOf epochScores agent) < cfg.acceptance_p_value_threshold)) ∧
    (∀ w, (evolve plateau agent epochScores cfg specs runTrial lcbFn pFn).1 = some w →
      (evolve plateau agent epochScores cfg specs runTrial lcbFn pFn).2 = 0 ∧
      w ∈ variantsOf agent specs ∧
      w.id = agent.id ∧ w.immutableCore = agent.immutableCore) ∧
    ((evolve plateau agent epochScores cfg specs runTrial lcbFn pFn).1 = none →
      (evolve plateau agent epochScores cfg specs runTrial lcbFn pFn).2 = plateau + 1) ∧
    (∀ w s l, pickBest runTrial lcbFn (survivorsOf runTrial (variantsOf agent specs)) =
        some (w, s, l) →
      s = runTrial w false ∧ l = lcbFn s ∧
      ∀ v ∈ survivorsOf runTrial (variantsOf agent specs),
        lcbFn (runTrial v false) ≤ l) ∧
    (∀ counter patience : Nat, isPlateaued counter patience = true ↔ patience ≤ counter) := by
  have hpick : ∀ w s l,
      pickBest runTrial lcbFn (survivorsOf runTrial (variantsOf agent specs)) =
        some (w, s, l) →
      s = runTrial w false ∧ l = lcbFn s ∧
      ∀ v ∈ survivorsOf runTrial (variantsOf agent specs), lcbFn (runTrial v false) ≤ l := by
    intro w s l hp
    refine ⟨(pickBest_fold_wf runTrial lcbFn _ none (by simp) w s l hp).1,
      (pickBest_fold_wf runTrial lcbFn _ none (by simp) w s l hp).2,
      (pickBest_fold_max runTrial lcbFn _ none w s l hp).1⟩
  have hmem : ∀ w s l,
      pickBest runTrial lcbFn (survivorsOf runTrial (variantsOf agent specs)) =
        some (w, s, l) →
      w ∈ variantsOf agent specs := by
    intro w s l hp
    rcases pickBest_fold_mem runTrial lcbFn _ none w s l hp with hacc | hmem'
    · exact absurd hacc (by simp)
    · exact survivorsOf_subset runTrial _ w hmem'
  have hplat : ∀ counter patience : Nat,
      isPlateaued counter patience = true ↔ patience ≤ counter := by
    intro counter patience
    unfold isPlateaued
    simp
  rcases hpb : pickBest runTrial lcbFn (survivorsOf runTrial (variantsOf agent specs))
    with _ | ⟨⟨bv, bs, bl⟩⟩
  · have hev : evolve plateau agent epochScores cfg specs runTrial lcbFn pFn =
        (none, plateau + 1) := by
      simp only [evolve, hpb]
    refine ⟨?_, ?_, ?_, fun w s l h => hpick w s l (hpb.trans h), hplat⟩
    · intro w
      rw [hev]
      constructor
      · intro h
        simp at h
      · rintro ⟨s, l, h, -⟩
        simp at h
    · intro w hw
      rw [hev] at hw
      simp at hw
    · intro _
      rw [hev]
  · by_cases hcond : mean (baselineScoresOf epochScores agent) + cfg.improvement_margin < bl ∧
        pFn bs (baselineScoresOf epochScores agent) < cfg.acceptance_p_value_threshold
    · have hev : evolve plateau agent epochScores cfg specs runTrial lcbFn pFn =
          (some bv, 0) := by
        simp only [evolve, hpb]
        rw [if_pos hcond]
      refine ⟨?_, ?_, ?_, fun w s l h => hpick w s l (hpb.trans h), hplat⟩
      · intro w
        rw [hev]
        constructor
        · intro h
          simp only [Option.some.injEq] at h
          subst h
          exact ⟨bs, bl, rfl, hcond.1, hcond.2⟩
        · rintro ⟨s, l, hps, -, -⟩
          simp only [Option.some.injEq, Prod.mk.injEq] at hps
          simp [hps.1]
      · intro w hw
        rw [hev] at hw
        simp only [Option.some.injEq] at hw
        subst hw
        have hm := hmem bv bs bl hpb
        exact ⟨by rw [hev], hm, variantsOf_preserves_core agent specs bv hm⟩
      · intro h
        rw [hev] at h
        simp at h
    · have hev : evolve plateau agent epochScores cfg specs runTrial lcbFn pFn =
          (none, plateau + 1) := by
        simp only [evolve, hpb]
        rw [if_neg hcond]
      refine ⟨?_, ?_, ?_, fun w s l h => hpick w s l (hpb.trans h), hplat⟩
      · intro w
        rw [hev]
        constructor
        · intro h
          simp at h
        · rintro ⟨s, l, hps, h1, h2⟩
          simp only [Option.some.injEq, Prod.mk.injEq] at hps
          obtain ⟨-, hs, hl⟩ := hps
          subst hs
          subst hl
          exact absurd ⟨h1, h2⟩ hcond
      · intro w hw
        rw [hev] at hw
        simp at hw
      · intro _
        rw [hev]

/-- Witness for C1 at a concrete acceptance: one variant, constant
statistics passing the gate — `evolve` commits the `withMutatedStrategy`
copy. -/
theorem claim1_mutator_acceptance_gate_witness :
    (evolve 4 gateAgent [] gateCfg [gateSpec]
      (fun _ _ => [3]) (fun _ => 3) (fun _ _ => 0)).1 = some gateVariant := by
  have h := (claim1_mutator_acceptance_gate 4 gateAgent [] gateCfg
    [gateSpec] (fun _ _ => [3]) (fun _ => 3) (fun _ _ => 0)).1 gateVariant
  refine h.mpr ⟨[3], 3, by decide, ?_, by decide⟩
  simp [mean, baselineScoresOf, gateCfg, defaultCfg]

end SISC
